import Mathlib

/-!
Shallow embedding of `bevy-single-variable-function-mesh` (files `src/lib.rs` and
`src/main.rs`) over exact rationals, together with theorems checking the
natural-language specification against it.

Conventions of the embedding:
* `f32` values are modelled as `ℚ`; every arithmetic operation used by the code
  (`+`, `-`, `*`, `/`, `abs`, comparisons) is exact on the inputs the theorems use.
* The transcendental helpers of `f32` (`atan`, `tan`) and `Vec3::normalize` only
  ever enter the code as pointwise value transformations; they are passed in as
  explicit function parameters (`arctan`, `tanq`, `nrm`) so that every definition
  stays executable.  No theorem below depends on any property of these
  parameters; concrete instances use `id`.
* `Vec::insert`, `Vec::remove(0)`, `Vec::reverse` become `List.insertIdx`,
  `List.tail`, `List.reverse`; the `for` loops with an accumulating local become
  `List.foldl`; the outer refinement loop (`for _ in 2..vertices`) becomes
  `Function.iterate` applied `vertices - 2` times.
* The `assert!` guards of `get_ring_from_math_function` in `src/main.rs` make
  that function fallible; it is embedded with an `Option` result (`none` models
  the panic).
-/

/-- The fixed finite-difference step `delta = 0.000001` of `src/lib.rs` and
`src/main.rs`. -/
def delta : ℚ := 1 / 1000000

/-- The `Position` struct shared by `src/lib.rs` and `src/main.rs`:
a sample `(x, f x)` together with the arctangent of the estimated slope. -/
structure Position where
  x : ℚ
  y : ℚ
  slope_in_percentage : ℚ
  deriving DecidableEq, Repr

instance : Inhabited Position := ⟨⟨0, 0, 0⟩⟩

/-- Forward finite-difference slope estimate
`((f (x + delta) - f x) / delta).atan()` used at `x_start`, at every candidate
midpoint and at every inserted point. -/
def slopeAt (arctan : ℚ → ℚ) (f : ℚ → ℚ) (x : ℚ) : ℚ :=
  arctan ((f (x + delta) - f x) / delta)

/-- The seed point `start` of `calculate_ring_of_vertices`. -/
def startPos (arctan : ℚ → ℚ) (f : ℚ → ℚ) (x_start : ℚ) : Position :=
  ⟨x_start, f x_start, slopeAt arctan f x_start⟩

/-- The seed point `end` of `calculate_ring_of_vertices` (backward difference). -/
def endPos (arctan : ℚ → ℚ) (f : ℚ → ℚ) (x_end : ℚ) : Position :=
  ⟨x_end, f x_end, arctan ((f x_end - f (x_end - delta)) / delta)⟩

/-- Candidate midpoint `vec[j-1].x + (vec[j].x - vec[j-1].x) / 2.0` of the
adjacent pair `(vec[j-1], vec[j])`. -/
def candX (vec : List Position) (j : ℕ) : ℚ :=
  (vec.getD (j - 1) default).x + ((vec.getD j default).x - (vec.getD (j - 1) default).x) / 2

/-- The curvature score
`(new_m - vec[j].slope).abs() + (new_m - vec[j-1].slope).abs()` of pair `j`. -/
def scoreAt (arctan : ℚ → ℚ) (f : ℚ → ℚ) (vec : List Position) (j : ℕ) : ℚ :=
  |slopeAt arctan f (candX vec j) - (vec.getD j default).slope_in_percentage| +
    |slopeAt arctan f (candX vec j) - (vec.getD (j - 1) default).slope_in_percentage|

/-- The `x`-span `vec[j].x - vec[j-1].x` of pair `j`. -/
def spanAt (vec : List Position) (j : ℕ) : ℚ :=
  (vec.getD j default).x - (vec.getD (j - 1) default).x

/-- One step of the inner scan of `calculate_ring_of_vertices` (`src/lib.rs`),
updating the fold state `(index, max_slope_difference, max_x_difference)` at
pair `j`. -/
def selStep (arctan : ℚ → ℚ) (f : ℚ → ℚ) (vec : List Position) (acc : ℕ × ℚ × ℚ) (j : ℕ) :
    ℕ × ℚ × ℚ :=
  if scoreAt arctan f vec j > acc.2.1 ∨
      (scoreAt arctan f vec j = acc.2.1 ∧ spanAt vec j > acc.2.2) then
    (j, scoreAt arctan f vec j, spanAt vec j)
  else acc

/-- The full inner scan `for j in 1..vec.len()` of `calculate_ring_of_vertices`,
started from `(1, 0.0, 0.0)`. -/
def selectPair (arctan : ℚ → ℚ) (f : ℚ → ℚ) (vec : List Position) : ℕ × ℚ × ℚ :=
  (List.range' 1 (vec.length - 1)).foldl (selStep arctan f vec) (1, 0, 0)

/-- One iteration of the refinement loop of `calculate_ring_of_vertices`:
insert the midpoint of the selected pair and update the running `maximum`. -/
def refineStep (arctan : ℚ → ℚ) (f : ℚ → ℚ) (st : List Position × ℚ) : List Position × ℚ :=
  let vec := st.1
  let index := (selectPair arctan f vec).1
  let new_x := candX vec index
  (List.insertIdx index ⟨new_x, f new_x, slopeAt arctan f new_x⟩ vec,
    if f new_x > st.2 then f new_x else st.2)

/-- State `(vec, maximum)` of `calculate_ring_of_vertices` after `k` iterations
of the refinement loop, starting from `([start, end], 0.0)`. -/
def refined (arctan : ℚ → ℚ) (f : ℚ → ℚ) (x_start x_end : ℚ) (k : ℕ) : List Position × ℚ :=
  (refineStep arctan f)^[k] ([startPos arctan f x_start, endPos arctan f x_end], 0)

/-- The mirrored copy `Position { x, y: -y, slope_in_percentage }` pushed for
each retained lower-half vertex. -/
def mirrorPos (p : Position) : Position := ⟨p.x, -p.y, p.slope_in_percentage⟩

/-- `calculate_ring_of_vertices` of `src/lib.rs`: refine `vertices - 2` times,
then build the lower half by conditionally removing the two boundary points
(each removed precisely when `f` at its `x` is nonzero), reversing, mirroring
`y` and appending. Returns the ring and the running maximum. -/
def calculate_ring_of_vertices (arctan : ℚ → ℚ) (f : ℚ → ℚ) (x_start x_end : ℚ)
    (vertices : ℕ) : List Position × ℚ :=
  let st := refined arctan f x_start x_end (vertices - 2)
  let vec := st.1
  let lower_half := vec
  let lh1 := if f (lower_half.headD default).x ≠ 0 then lower_half.tail else lower_half
  let lh2 := lh1.reverse
  let lh3 := if f (lh2.headD default).x ≠ 0 then lh2.tail else lh2
  (vec ++ lh3.map mirrorPos, st.2)

/-- The list of midpoints inserted by the first `k` refinement iterations, in
insertion order (observation of the trace of the loop of
`calculate_ring_of_vertices`). -/
def midTrace (arctan : ℚ → ℚ) (f : ℚ → ℚ) (x_start x_end : ℚ) (k : ℕ) : List ℚ :=
  (List.range k).map fun i =>
    candX (refined arctan f x_start x_end i).1
      (selectPair arctan f (refined arctan f x_start x_end i).1).1

/-- The midpoints inserted by a full `calculate_ring_of_vertices` call with
budget `vertices` (its `vertices - 2` insertions). -/
def insertedMidpoints (arctan : ℚ → ℚ) (f : ℚ → ℚ) (x_start x_end : ℚ)
    (vertices : ℕ) : List ℚ :=
  midTrace arctan f x_start x_end (vertices - 2)

/-- One step of the inner scan of `get_ring_from_math_function` (`src/main.rs`):
state `(index, max_absolute_difference)`, updated whenever
`absolute_difference >= max_absolute_difference` (no span tie-break). -/
def selStepM (arctan : ℚ → ℚ) (f : ℚ → ℚ) (vec : List Position) (acc : ℕ × ℚ) (j : ℕ) :
    ℕ × ℚ :=
  if scoreAt arctan f vec j ≥ acc.2 then (j, scoreAt arctan f vec j) else acc

/-- The full inner scan of `get_ring_from_math_function`, started from `(1, 0.0)`. -/
def selectPairM (arctan : ℚ → ℚ) (f : ℚ → ℚ) (vec : List Position) : ℕ × ℚ :=
  (List.range' 1 (vec.length - 1)).foldl (selStepM arctan f vec) (1, 0)

/-- One iteration of the refinement loop of `get_ring_from_math_function`
(no running maximum is tracked in `src/main.rs`). -/
def refineStepM (arctan : ℚ → ℚ) (f : ℚ → ℚ) (vec : List Position) : List Position :=
  let index := (selectPairM arctan f vec).1
  let new_x := candX vec index
  List.insertIdx index ⟨new_x, f new_x, slopeAt arctan f new_x⟩ vec

/-- `get_ring_from_math_function` of `src/main.rs`.  Its two `assert!` guards
(`x_start < x_end` and `vertices_per_side > 2`) are modelled by an `Option`
result: `none` is the panic.  After refinement the whole upper half is emitted,
then the list is reversed and the entries at positions `vertices_per_side - 1`
and `0` are removed unconditionally before the mirrored lower half is emitted. -/
def get_ring_from_math_function (arctan : ℚ → ℚ) (f : ℚ → ℚ) (x_start x_end : ℚ)
    (vertices_per_side : ℕ) : Option (List (ℚ × ℚ)) :=
  if x_start < x_end then
    if 2 < vertices_per_side then
      let vec := (refineStepM arctan f)^[vertices_per_side - 2]
        [startPos arctan f x_start, endPos arctan f x_end]
      let upper := vec.map fun e => (e.x, e.y)
      let rev := vec.reverse
      let rev1 := rev.eraseIdx (vertices_per_side - 1)
      let rev2 := rev1.eraseIdx 0
      some (upper ++ rev2.map fun e => (e.x, -e.y))
    else none
  else none

/-- The `SingleVariableFunctionMesh` configuration struct of `src/lib.rs`. -/
structure SingleVariableFunctionMesh where
  f : ℚ → ℚ
  x_start : ℚ
  x_end : ℚ
  vertices : ℕ
  relative_height : ℚ

/-- `f32::signum` (total on `ℚ`: `1` for nonnegative input, `-1` for negative,
matching Rust's `signum` on every non-NaN value except that `ℚ` has no `-0.0`). -/
def qsignum (q : ℚ) : ℚ := if q < 0 then -1 else 1

/-- One output vertex of the mesh builder: position, normal, uv. -/
structure MeshVertex where
  position : ℚ × ℚ × ℚ
  normal : ℚ × ℚ × ℚ
  uv : ℚ × ℚ
  deriving DecidableEq, Repr

/-- Ring length `ring.len()` produced for a given configuration (the `amount`
local of `From<SingleVariableFunctionMesh> for Mesh`). -/
def ringAmount (arctan : ℚ → ℚ) (m : SingleVariableFunctionMesh) : ℕ :=
  (calculate_ring_of_vertices arctan m.f m.x_start m.x_end m.vertices).1.length

/-- The `amount_layers` local: `(ring.len() - 2) / 2`, overridden to `1` when
`relative_height == 0.0`. -/
def meshAmountLayers (arctan : ℚ → ℚ) (m : SingleVariableFunctionMesh) : ℕ :=
  if m.relative_height = 0 then 1 else (ringAmount arctan m - 2) / 2

/-- Body of the doubly nested vertex loop of
`From<SingleVariableFunctionMesh> for Mesh` (layer `i`, ring position `j`). -/
def bodyVertex (tanq : ℚ → ℚ) (nrm : ℚ × ℚ × ℚ → ℚ × ℚ × ℚ) (m : SingleVariableFunctionMesh)
    (ring : List Position) (maximum : ℚ) (amount amount_layers i j : ℕ) : MeshVertex :=
  let scale := (ring.getD i default).y * m.relative_height +
    maximum * (1 - m.relative_height)
  let x := qsignum (ring.getD j default).x * (|(ring.getD j default).x| * scale)
  let z := qsignum (ring.getD j default).y * (|(ring.getD j default).y| * scale)
  let y := (ring.getD i default).x * m.relative_height
  let nh0 := nrm (-(tanq (ring.getD j default).slope_in_percentage), 0, 1)
  let nh : ℚ × ℚ × ℚ := if amount / 2 ≤ j then (nh0.1, nh0.2.1, -nh0.2.2) else nh0
  let nv := nrm (1, -(tanq (ring.getD i default).slope_in_percentage), 1)
  let normals : ℚ × ℚ × ℚ :=
    if amount_layers = 1 then (0, 1, 0) else (nh.1 / 3 * 2, nv.2.1, nh.2.2 / 3 * 2)
  let realtive_texture_size := 1 - y / |maximum|
  let uv_x := (x * realtive_texture_size + |m.x_start|) / (m.x_end - m.x_start)
  let uv_y := (z * realtive_texture_size + maximum) / (maximum * 2)
  ⟨(x, y, z), normals, (uv_x, uv_y)⟩

/-- The vertex buffer built by `From<SingleVariableFunctionMesh> for Mesh`:
bottom pole, then (when `relative_height >= 0.0`) one vertex per layer and ring
position, then the top pole. -/
def meshVertices (arctan tanq : ℚ → ℚ) (nrm : ℚ × ℚ × ℚ → ℚ × ℚ × ℚ)
    (m : SingleVariableFunctionMesh) : List MeshVertex :=
  let rm := calculate_ring_of_vertices arctan m.f m.x_start m.x_end m.vertices
  let ring := rm.1
  let maximum := rm.2
  let amount := ring.length
  let amount_layers := if m.relative_height = 0 then 1 else (amount - 2) / 2
  ⟨(0, m.x_start * m.relative_height, 0), (0, -1, 0), (1/2, 1/2)⟩ ::
    ((if 0 ≤ m.relative_height then
        (List.range amount_layers).flatMap fun i =>
          (List.range amount).map fun j =>
            bodyVertex tanq nrm m ring maximum amount amount_layers i j
      else []) ++
      [⟨(0, m.x_end * m.relative_height, 0), (0, 1, 0), (1/2, 1/2)⟩])

/-- The per-`i` contribution of the first index loop of
`From<SingleVariableFunctionMesh> for Mesh`: the bottom-cap fan triangle (only
when `amount_layers > 1`) followed by the top-cap fan triangle. -/
def capIndices (amount amount_layers : ℕ) : List ℕ :=
  (List.range amount).flatMap fun i =>
    (if 1 < amount_layers then [(i + 1) % amount + 1, i + 1, 0] else []) ++
      [(amount_layers - 1) * amount + i + 1,
        (amount_layers - 1) * amount + (i + 1) % amount + 1,
        amount_layers * amount + 1]

/-- The six indices `[br, tr, tl, bl, br, tl]` that the side-wall loop emits for
layer pair `segment` and ring position `i`, with the wrap-around override of
`tr` and `br` at `i == amount - 1`. -/
def sideQuadIndices (amount segment i : ℕ) : List ℕ :=
  let tl := segment * amount + i + 1
  let tr := if i = amount - 1 then segment * amount + 1 else segment * amount + i + 2
  let bl := (segment - 1) * amount + i + 1
  let br := if i = amount - 1 then (segment - 1) * amount + 1 else (segment - 1) * amount + i + 2
  [br, tr, tl, bl, br, tl]

/-- The two triangles `(br, tr, tl)` and `(bl, br, tl)` of that quad. -/
def sideQuadTriangles (amount segment i : ℕ) : List (ℕ × ℕ × ℕ) :=
  let tl := segment * amount + i + 1
  let tr := if i = amount - 1 then segment * amount + 1 else segment * amount + i + 2
  let bl := (segment - 1) * amount + i + 1
  let br := if i = amount - 1 then (segment - 1) * amount + 1 else (segment - 1) * amount + i + 2
  [(br, tr, tl), (bl, br, tl)]

/-- All side-wall triangles of the band between layers `segment - 1` and
`segment`. -/
def bandTriangles (amount segment : ℕ) : List (ℕ × ℕ × ℕ) :=
  (List.range amount).flatMap (sideQuadTriangles amount segment)

/-- Whether triangle `t` references both endpoints `u`, `v` of an edge. -/
def triHasEdge (t : ℕ × ℕ × ℕ) (u v : ℕ) : Prop :=
  (u = t.1 ∨ u = t.2.1 ∨ u = t.2.2) ∧ (v = t.1 ∨ v = t.2.1 ∨ v = t.2.2)

instance (t : ℕ × ℕ × ℕ) (u v : ℕ) : Decidable (triHasEdge t u v) := by
  unfold triHasEdge; infer_instance

/-- The full index buffer built by `From<SingleVariableFunctionMesh> for Mesh`:
cap fans, then the side-wall quads for `segment in 1..amount_layers`. -/
def meshIndices (amount amount_layers : ℕ) : List ℕ :=
  capIndices amount amount_layers ++
    (List.range' 1 (amount_layers - 1)).flatMap fun segment =>
      (List.range amount).flatMap (sideQuadIndices amount segment)

/-- The conversion `From<SingleVariableFunctionMesh> for Mesh`, reduced to the
two buffers the spec talks about: the vertex list and the `u32` index list. -/
def mesh_from (arctan tanq : ℚ → ℚ) (nrm : ℚ × ℚ × ℚ → ℚ × ℚ × ℚ)
    (m : SingleVariableFunctionMesh) : List MeshVertex × List ℕ :=
  (meshVertices arctan tanq nrm m,
    meshIndices (ringAmount arctan m) (meshAmountLayers arctan m))

/-! ### List utilities -/

lemma sublist_insertIdx_self (l : List Position) (n : ℕ) (a : Position) :
    List.Sublist l (List.insertIdx n a l) := by
  induction l generalizing n with
  | nil => cases n <;> simp [List.insertIdx]
  | cons x xs ih =>
    cases n with
    | zero =>
      rw [List.insertIdx_zero]
      exact List.sublist_cons_self a (x :: xs)
    | succ m =>
      rw [List.insertIdx_succ_cons]
      exact List.Sublist.cons₂ x (ih m)

lemma getLastD_indep (x : Position) (xs : List Position) (d1 d2 : Position) :
    (x :: xs).getLastD d1 = (x :: xs).getLastD d2 := by
  cases xs with
  | nil => rfl
  | cons z t =>
    rw [show (x :: z :: t).getLastD d1 = (z :: t).getLastD x from List.getLastD_cons ..,
      show (x :: z :: t).getLastD d2 = (z :: t).getLastD x from List.getLastD_cons ..]

lemma headD_insertIdx (l : List Position) (n : ℕ) (a d : Position) (h : 1 ≤ n) :
    (List.insertIdx n a l).headD d = l.headD d := by
  cases n with
  | zero => omega
  | succ m =>
    cases l with
    | nil => rw [List.insertIdx_succ_nil]
    | cons x xs => rw [List.insertIdx_succ_cons]; rfl

lemma getLastD_insertIdx (l : List Position) (n : ℕ) (a d : Position)
    (h : n < l.length) : (List.insertIdx n a l).getLastD d = l.getLastD d := by
  induction l generalizing n d with
  | nil => simp at h
  | cons x xs ih =>
    cases n with
    | zero =>
      rw [List.insertIdx_zero, List.getLastD_cons]
      exact getLastD_indep x xs a d
    | succ m =>
      rw [List.insertIdx_succ_cons, List.getLastD_cons, List.getLastD_cons]
      exact ih m x (by simpa using h)

lemma getLastD_tail (l : List Position) (d : Position) (h : 2 ≤ l.length) :
    l.tail.getLastD d = l.getLastD d := by
  rcases l with _ | ⟨x, _ | ⟨z, t⟩⟩
  · simp at h
  · simp at h
  · rw [List.getLastD_cons]
    exact getLastD_indep z t x d |>.symm ▸ rfl

lemma headD_reverse (l : List Position) (d : Position) :
    l.reverse.headD d = l.getLastD d := by
  rw [List.headD_eq_head?, List.head?_reverse, List.getLastD_eq_getLast?]

lemma tail_reverse (l : List Position) : l.reverse.tail = l.dropLast.reverse := by
  rcases eq_or_ne l [] with rfl | hne
  · rfl
  · conv_lhs => rw [← List.dropLast_append_getLast hne]
    rw [List.reverse_append]
    rfl

lemma eraseIdx_zero_eq_tail {α : Type} (l : List α) : List.eraseIdx l 0 = l.tail := by
  cases l <;> rfl

lemma eraseIdx_last_eq_dropLast (l : List Position) (h : l ≠ []) :
    List.eraseIdx l (l.length - 1) = l.dropLast := by
  induction l with
  | nil => simp at h
  | cons x xs ih =>
    rcases xs with _ | ⟨z, t⟩
    · rfl
    · have := ih (by simp)
      simpa [List.eraseIdx] using this

/-! ### Invariants of the refinement loop -/

lemma foldl_fst_bounds {β : Type} (P : ℕ → Prop) (step : ℕ × β → ℕ → ℕ × β)
    (hstep : ∀ acc j, (step acc j).1 = j ∨ step acc j = acc) :
    ∀ (l : List ℕ) (acc : ℕ × β), P acc.1 → (∀ j ∈ l, P j) → P ((l.foldl step acc).1) := by
  intro l
  induction l with
  | nil => intro acc hacc _; exact hacc
  | cons j t ih =>
    intro acc hacc hl
    rw [List.foldl_cons]
    apply ih
    · rcases hstep acc j with h | h
      · rw [h]; exact hl j (List.mem_cons_self j t)
      · rw [h]; exact hacc
    · exact fun j' hj' => hl j' (List.mem_cons_of_mem j hj')

lemma selStep_fst_cases (arctan f : ℚ → ℚ) (vec : List Position) (acc : ℕ × ℚ × ℚ) (j : ℕ) :
    (selStep arctan f vec acc j).1 = j ∨ selStep arctan f vec acc j = acc := by
  unfold selStep; split
  · left; rfl
  · right; rfl

lemma selStepM_fst_cases (arctan f : ℚ → ℚ) (vec : List Position) (acc : ℕ × ℚ) (j : ℕ) :
    (selStepM arctan f vec acc j).1 = j ∨ selStepM arctan f vec acc j = acc := by
  unfold selStepM; split
  · left; rfl
  · right; rfl

lemma selectPair_fst_bounds (arctan f : ℚ → ℚ) (vec : List Position) (h : 2 ≤ vec.length) :
    1 ≤ (selectPair arctan f vec).1 ∧ (selectPair arctan f vec).1 < vec.length := by
  apply foldl_fst_bounds (P := fun j => 1 ≤ j ∧ j < vec.length) _
    (selStep_fst_cases arctan f vec)
  · exact ⟨le_refl 1, by omega⟩
  · intro j hj
    rw [List.mem_range'] at hj
    omega

lemma selectPairM_fst_bounds (arctan f : ℚ → ℚ) (vec : List Position) (h : 2 ≤ vec.length) :
    1 ≤ (selectPairM arctan f vec).1 ∧ (selectPairM arctan f vec).1 < vec.length := by
  apply foldl_fst_bounds (P := fun j => 1 ≤ j ∧ j < vec.length) _
    (selStepM_fst_cases arctan f vec)
  · exact ⟨le_refl 1, by omega⟩
  · intro j hj
    rw [List.mem_range'] at hj
    omega

lemma refined_succ (arctan f : ℚ → ℚ) (x_start x_end : ℚ) (k : ℕ) :
    refined arctan f x_start x_end (k + 1) =
      refineStep arctan f (refined arctan f x_start x_end k) :=
  Function.iterate_succ_apply' (refineStep arctan f) k _

lemma refineStep_fst (arctan f : ℚ → ℚ) (st : List Position × ℚ) :
    (refineStep arctan f st).1 =
      List.insertIdx (selectPair arctan f st.1).1
        ⟨candX st.1 (selectPair arctan f st.1).1,
          f (candX st.1 (selectPair arctan f st.1).1),
          slopeAt arctan f (candX st.1 (selectPair arctan f st.1).1)⟩ st.1 := rfl

lemma refineStep_snd (arctan f : ℚ → ℚ) (st : List Position × ℚ) :
    (refineStep arctan f st).2 =
      if f (candX st.1 (selectPair arctan f st.1).1) > st.2 then
        f (candX st.1 (selectPair arctan f st.1).1)
      else st.2 := rfl

lemma refined_length (arctan f : ℚ → ℚ) (x_start x_end : ℚ) (k : ℕ) :
    (refined arctan f x_start x_end k).1.length = k + 2 := by
  induction k with
  | zero => rfl
  | succ k ih =>
    rw [refined_succ, refineStep_fst]
    have hb := selectPair_fst_bounds arctan f (refined arctan f x_start x_end k).1 (by omega)
    rw [List.length_insertIdx _ _ (by omega)]
    omega

lemma refined_headD (arctan f : ℚ → ℚ) (x_start x_end : ℚ) (k : ℕ) :
    (refined arctan f x_start x_end k).1.headD default = startPos arctan f x_start := by
  induction k with
  | zero => rfl
  | succ k ih =>
    have hlen := refined_length arctan f x_start x_end k
    have hb := selectPair_fst_bounds arctan f (refined arctan f x_start x_end k).1 (by omega)
    rw [refined_succ, refineStep_fst, headD_insertIdx _ _ _ _ hb.1]
    exact ih

lemma refined_getLastD (arctan f : ℚ → ℚ) (x_start x_end : ℚ) (k : ℕ) :
    (refined arctan f x_start x_end k).1.getLastD default = endPos arctan f x_end := by
  induction k with
  | zero => rfl
  | succ k ih =>
    have hlen := refined_length arctan f x_start x_end k
    have hb := selectPair_fst_bounds arctan f (refined arctan f x_start x_end k).1 (by omega)
    rw [refined_succ, refineStep_fst, getLastD_insertIdx _ _ _ _ hb.2]
    exact ih

lemma refined_sublist (arctan f : ℚ → ℚ) (x_start x_end : ℚ) (k : ℕ) :
    List.Sublist (refined arctan f x_start x_end k).1
      (refined arctan f x_start x_end (k + 1)).1 := by
  rw [refined_succ, refineStep_fst]
  exact sublist_insertIdx_self ..

lemma chain'_insertIdx (R : Position → Position → Prop) :
    ∀ (l : List Position) (n : ℕ) (a : Position), 1 ≤ n → n < l.length →
      List.Chain' R l → R (l.getD (n - 1) default) a → R a (l.getD n default) →
      List.Chain' R (List.insertIdx n a l) := by
  intro l
  induction l with
  | nil =>
    intro n a _ h2 _ _ _
    simp at h2
  | cons x xs ih =>
    intro n a h1 h2 hc ha hb
    cases n with
    | zero => omega
    | succ m =>
      rw [List.insertIdx_succ_cons]
      rcases xs with _ | ⟨z, t⟩
      · simp at h2
      cases m with
      | zero =>
        rw [List.insertIdx_zero]
        rw [List.chain'_cons, List.chain'_cons]
        refine ⟨?_, ?_, (List.chain'_cons.mp hc).2⟩
        · simpa using ha
        · simpa using hb
      | succ p =>
        have hrec := ih (p + 1) a (by omega) (by simp at h2 ⊢; omega)
          (List.chain'_cons.mp hc).2 (by simpa using ha) (by simpa using hb)
        rw [List.insertIdx_succ_cons] at hrec ⊢
        rw [List.chain'_cons]
        exact ⟨(List.chain'_cons.mp hc).1, hrec⟩

lemma chain'_getD (R : Position → Position → Prop) (l : List Position)
    (hc : List.Chain' R l) (i : ℕ) (h : i + 1 < l.length) :
    R (l.getD i default) (l.getD (i + 1) default) := by
  rw [List.chain'_iff_get] at hc
  have hh := hc i (by omega)
  rwa [List.getD_eq_get l default (by omega), List.getD_eq_get l default h]

lemma candX_between (vec : List Position) (idx : ℕ) (h1 : 1 ≤ idx) (h2 : idx < vec.length)
    (hc : List.Chain' (fun p q : Position => p.x < q.x) vec) :
    (vec.getD (idx - 1) default).x < candX vec idx ∧
      candX vec idx < (vec.getD idx default).x := by
  have hadj := chain'_getD _ vec hc (idx - 1) (by omega)
  rw [show idx - 1 + 1 = idx by omega] at hadj
  unfold candX
  constructor <;> linarith

lemma refined_chain' (arctan f : ℚ → ℚ) (x_start x_end : ℚ) (h : x_start < x_end) (k : ℕ) :
    List.Chain' (fun p q : Position => p.x < q.x) (refined arctan f x_start x_end k).1 := by
  induction k with
  | zero =>
    simp only [refined, Function.iterate_zero, id_eq, List.chain'_cons, List.chain'_singleton,
      and_true]
    exact h
  | succ k ih =>
    have hlen := refined_length arctan f x_start x_end k
    have hb := selectPair_fst_bounds arctan f (refined arctan f x_start x_end k).1 (by omega)
    have hmid := candX_between (refined arctan f x_start x_end k).1 _ hb.1 hb.2 ih
    rw [refined_succ, refineStep_fst]
    exact chain'_insertIdx _ _ _ _ hb.1 hb.2 ih hmid.1 hmid.2

/-! ### The running maximum -/

lemma ite_gt_eq_max (a b : ℚ) : (if b > a then b else a) = max a b := by
  rcases le_or_lt b a with h | h
  · rw [if_neg (not_lt.mpr h), max_eq_left h]
  · rw [if_pos h, max_eq_right h.le]

lemma midTrace_succ (arctan f : ℚ → ℚ) (x_start x_end : ℚ) (k : ℕ) :
    midTrace arctan f x_start x_end (k + 1) =
      midTrace arctan f x_start x_end k ++
        [candX (refined arctan f x_start x_end k).1
          (selectPair arctan f (refined arctan f x_start x_end k).1).1] := by
  unfold midTrace
  rw [List.range_succ, List.map_append]
  rfl

lemma refined_snd_eq_foldl (arctan f : ℚ → ℚ) (x_start x_end : ℚ) (k : ℕ) :
    (refined arctan f x_start x_end k).2 =
      (midTrace arctan f x_start x_end k).foldl (fun M x => max M (f x)) 0 := by
  induction k with
  | zero => rfl
  | succ k ih =>
    rw [refined_succ, refineStep_snd, midTrace_succ, List.foldl_append]
    simp only [List.foldl_cons, List.foldl_nil]
    rw [ih, ite_gt_eq_max]

lemma le_foldl_max (g : ℚ → ℚ) : ∀ (l : List ℚ) (M : ℚ),
    M ≤ l.foldl (fun M x => max M (g x)) M := by
  intro l
  induction l with
  | nil => intro M; exact le_refl M
  | cons x t ih =>
    intro M
    rw [List.foldl_cons]
    exact le_trans (le_max_left M (g x)) (ih _)

lemma foldl_max_zero_of_neg (g : ℚ → ℚ) : ∀ (l : List ℚ), (∀ x ∈ l, g x < 0) →
    l.foldl (fun M x => max M (g x)) 0 = 0 := by
  intro l
  induction l with
  | nil => intro _; rfl
  | cons x t ih =>
    intro hneg
    rw [List.foldl_cons, max_eq_left (le_of_lt (hneg x (List.mem_cons_self x t)))]
    exact ih fun y hy => hneg y (List.mem_cons_of_mem x hy)

/-! ### Shape of the mirrored ring -/

lemma calc_ring_snd (arctan f : ℚ → ℚ) (x_start x_end : ℚ) (n : ℕ) :
    (calculate_ring_of_vertices arctan f x_start x_end n).2 =
      (refined arctan f x_start x_end (n - 2)).2 := rfl

lemma calc_ring_fst (arctan f : ℚ → ℚ) (x_start x_end : ℚ) (n : ℕ) :
    (calculate_ring_of_vertices arctan f x_start x_end n).1 =
      (refined arctan f x_start x_end (n - 2)).1 ++
        (if f x_end ≠ 0 then
            ((if f x_start ≠ 0 then (refined arctan f x_start x_end (n - 2)).1.tail
                else (refined arctan f x_start x_end (n - 2)).1).reverse).tail
          else
            ((if f x_start ≠ 0 then (refined arctan f x_start x_end (n - 2)).1.tail
                else (refined arctan f x_start x_end (n - 2)).1).reverse)).map mirrorPos := by
  have hU := refined_headD arctan f x_start x_end (n - 2)
  have hL := refined_getLastD arctan f x_start x_end (n - 2)
  have hlen := refined_length arctan f x_start x_end (n - 2)
  simp only [calculate_ring_of_vertices]
  rw [hU]
  have hx1 : (startPos arctan f x_start).x = x_start := rfl
  rw [hx1]
  have h2 : ((if f x_start ≠ 0 then (refined arctan f x_start x_end (n - 2)).1.tail
      else (refined arctan f x_start x_end (n - 2)).1).reverse.headD default).x = x_end := by
    rw [headD_reverse]
    by_cases hxs : f x_start ≠ 0
    · rw [if_pos hxs, getLastD_tail _ _ (by omega), hL]
      rfl
    · rw [if_neg hxs, hL]
      rfl
  rw [h2]

lemma calc_ring_length (arctan f : ℚ → ℚ) (x_start x_end : ℚ) (n : ℕ) :
    (calculate_ring_of_vertices arctan f x_start x_end n).1.length =
      (n - 2 + 2) + ((n - 2 + 2) -
        ((if f x_start ≠ 0 then 1 else 0) + (if f x_end ≠ 0 then 1 else 0))) := by
  have hlen := refined_length arctan f x_start x_end (n - 2)
  rw [calc_ring_fst, List.length_append, List.length_map, hlen]
  by_cases h1 : f x_start ≠ 0 <;> by_cases h2 : f x_end ≠ 0 <;>
    simp [h1, h2, List.length_tail, hlen]

/-! ### Maximality of the selected pair -/

lemma scoreAt_nonneg (arctan f : ℚ → ℚ) (vec : List Position) (j : ℕ) :
    0 ≤ scoreAt arctan f vec j :=
  add_nonneg (abs_nonneg _) (abs_nonneg _)

lemma lexle_trans {s1 d1 s2 d2 s3 d3 : ℚ}
    (h1 : s1 < s2 ∨ (s1 = s2 ∧ d1 ≤ d2)) (h2 : s2 < s3 ∨ (s2 = s3 ∧ d2 ≤ d3)) :
    s1 < s3 ∨ (s1 = s3 ∧ d1 ≤ d3) := by
  rcases h1 with h1 | ⟨h1a, h1b⟩ <;> rcases h2 with h2 | ⟨h2a, h2b⟩
  · left; linarith
  · left; linarith
  · left; linarith
  · right; exact ⟨h1a.trans h2a, h1b.trans h2b⟩

lemma selFold_max (arctan f : ℚ → ℚ) (vec : List Position) :
    ∀ (l : List ℕ) (acc : ℕ × ℚ × ℚ),
      acc.2.1 = scoreAt arctan f vec acc.1 → acc.2.2 = spanAt vec acc.1 →
      (((l.foldl (selStep arctan f vec) acc).2.1 =
          scoreAt arctan f vec (l.foldl (selStep arctan f vec) acc).1 ∧
        (l.foldl (selStep arctan f vec) acc).2.2 =
          spanAt vec (l.foldl (selStep arctan f vec) acc).1) ∧
        (acc.2.1 < (l.foldl (selStep arctan f vec) acc).2.1 ∨
          (acc.2.1 = (l.foldl (selStep arctan f vec) acc).2.1 ∧
            acc.2.2 ≤ (l.foldl (selStep arctan f vec) acc).2.2)) ∧
        ∀ j ∈ l, scoreAt arctan f vec j < (l.foldl (selStep arctan f vec) acc).2.1 ∨
          (scoreAt arctan f vec j = (l.foldl (selStep arctan f vec) acc).2.1 ∧
            spanAt vec j ≤ (l.foldl (selStep arctan f vec) acc).2.2)) := by
  intro l
  induction l with
  | nil =>
    intro acc ha hb
    exact ⟨⟨ha, hb⟩, Or.inr ⟨rfl, le_refl _⟩, by simp⟩
  | cons j t ih =>
    intro acc ha hb
    rw [List.foldl_cons]
    by_cases hcond : scoreAt arctan f vec j > acc.2.1 ∨
        (scoreAt arctan f vec j = acc.2.1 ∧ spanAt vec j > acc.2.2)
    · have hstep : selStep arctan f vec acc j =
          (j, scoreAt arctan f vec j, spanAt vec j) := by
        unfold selStep; rw [if_pos hcond]
      rw [hstep]
      obtain ⟨hr1, hmono, hall⟩ := ih (j, scoreAt arctan f vec j, spanAt vec j) rfl rfl
      refine ⟨hr1, ?_, ?_⟩
      · refine lexle_trans ?_ hmono
        rcases hcond with h | ⟨h1, h2⟩
        · left; exact h
        · right; exact ⟨h1.symm, le_of_lt h2⟩
      · intro j' hj'
        rcases List.mem_cons.mp hj' with rfl | hj'
        · exact hmono
        · exact hall j' hj'
    · have hstep : selStep arctan f vec acc j = acc := by
        unfold selStep; rw [if_neg hcond]
      rw [hstep]
      obtain ⟨hr1, hmono, hall⟩ := ih acc ha hb
      refine ⟨hr1, hmono, ?_⟩
      intro j' hj'
      rcases List.mem_cons.mp hj' with rfl | hj'
      · push_neg at hcond
        refine lexle_trans ?_ hmono
        rcases lt_or_eq_of_le hcond.1 with h | h
        · left; exact h
        · right; exact ⟨h, hcond.2 h⟩
      · exact hall j' hj'

lemma selectPair_max (arctan f : ℚ → ℚ) (vec : List Position) (h2 : 2 ≤ vec.length)
    (hc : List.Chain' (fun p q : Position => p.x < q.x) vec) :
    (selectPair arctan f vec).2.1 = scoreAt arctan f vec (selectPair arctan f vec).1 ∧
      (selectPair arctan f vec).2.2 = spanAt vec (selectPair arctan f vec).1 ∧
      ∀ j, 1 ≤ j → j < vec.length →
        scoreAt arctan f vec j < (selectPair arctan f vec).2.1 ∨
          (scoreAt arctan f vec j = (selectPair arctan f vec).2.1 ∧
            spanAt vec j ≤ (selectPair arctan f vec).2.2) := by
  have hspan1 : 0 < spanAt vec 1 := by
    have h01 : (vec.getD 0 default).x < (vec.getD 1 default).x :=
      chain'_getD _ vec hc 0 (by omega)
    unfold spanAt
    simpa using sub_pos.mpr h01
  have hstep1 : selStep arctan f vec (1, 0, 0) 1 =
      (1, scoreAt arctan f vec 1, spanAt vec 1) := by
    unfold selStep
    rcases lt_or_eq_of_le (scoreAt_nonneg arctan f vec 1) with h | h
    · rw [if_pos (Or.inl h)]
    · rw [if_pos (Or.inr ⟨h.symm, hspan1⟩)]
  have hr : List.range' 1 (vec.length - 1) = 1 :: List.range' 2 (vec.length - 2) := by
    rw [show vec.length - 1 = (vec.length - 2) + 1 by omega, List.range'_succ]
  unfold selectPair
  rw [hr, List.foldl_cons, hstep1]
  obtain ⟨hr1, hmono, hall⟩ := selFold_max arctan f vec (List.range' 2 (vec.length - 2))
    (1, scoreAt arctan f vec 1, spanAt vec 1) rfl rfl
  refine ⟨hr1.1, hr1.2, ?_⟩
  intro j hj1 hjlen
  rcases eq_or_lt_of_le hj1 with rfl | hj2
  · exact hmono
  · exact hall j (by rw [List.mem_range'_1]; omega)

/-! ### Sizes and bounds of the mesh buffers -/

lemma length_flatMap_const {α : Type} (l : List ℕ) (g : ℕ → List α) (c : ℕ)
    (hg : ∀ i ∈ l, (g i).length = c) : (l.flatMap g).length = l.length * c := by
  induction l with
  | nil => simp
  | cons x t ih =>
    rw [List.flatMap_cons, List.length_append, hg x (List.mem_cons_self x t),
      ih fun i hi => hg i (List.mem_cons_of_mem x hi)]
    simp [Nat.succ_mul, Nat.add_comm]

lemma meshVertices_length (arctan tanq : ℚ → ℚ) (nrm : ℚ × ℚ × ℚ → ℚ × ℚ × ℚ)
    (m : SingleVariableFunctionMesh) (h : 0 ≤ m.relative_height) :
    (meshVertices arctan tanq nrm m).length =
      meshAmountLayers arctan m * ringAmount arctan m + 2 := by
  unfold meshVertices meshAmountLayers ringAmount
  dsimp only
  rw [if_pos h]
  rw [List.length_cons, List.length_append,
    length_flatMap_const _ _
      (calculate_ring_of_vertices arctan m.f m.x_start m.x_end m.vertices).1.length
      (fun i _ => by simp)]
  simp only [List.length_range, List.length_singleton, Nat.add_comm, Nat.mul_comm]
  rw [← Nat.add_assoc]

lemma sideQuadIndices_length (a s i : ℕ) : (sideQuadIndices a s i).length = 6 := rfl

lemma capIndices_length (a L : ℕ) :
    (capIndices a L).length = a * (if 1 < L then 6 else 3) := by
  unfold capIndices
  rw [length_flatMap_const _ _ (if 1 < L then 6 else 3)]
  · simp
  · intro i _
    by_cases h : 1 < L <;> simp [h]

lemma meshIndices_length (a L : ℕ) :
    (meshIndices a L).length = a * (if 1 < L then 6 else 3) + (L - 1) * (a * 6) := by
  unfold meshIndices
  rw [List.length_append, capIndices_length,
    length_flatMap_const _ _ (a * 6) fun s _ => by
      rw [length_flatMap_const _ _ 6 fun i _ => sideQuadIndices_length a s i]
      simp]
  simp

lemma meshIndices_length_mod3 (a L : ℕ) : (meshIndices a L).length % 3 = 0 := by
  rw [meshIndices_length]
  rcases le_or_lt L 1 with h | h
  · rw [if_neg (by omega)]
    exact Nat.mod_eq_zero_of_dvd
      (Dvd.dvd.add ⟨a, by ring⟩ ⟨(L - 1) * (a * 2), by ring⟩)
  · rw [if_pos h]
    exact Nat.mod_eq_zero_of_dvd
      (Dvd.dvd.add ⟨a * 2, by ring⟩ ⟨(L - 1) * (a * 2), by ring⟩)

lemma mem_capIndices_lt (a L e : ℕ) (ha : 1 ≤ a) (hL : 1 ≤ L)
    (he : e ∈ capIndices a L) : e < a * L + 2 := by
  unfold capIndices at he
  rw [List.mem_flatMap] at he
  obtain ⟨i, hi, he⟩ := he
  rw [List.mem_range] at hi
  have hmod : (i + 1) % a < a := Nat.mod_lt _ (by omega)
  obtain ⟨L', rfl⟩ : ∃ L', L = L' + 1 := ⟨L - 1, by omega⟩
  have e1 : (L' + 1) * a = L' * a + a := by ring
  have e2 : a * (L' + 1) = L' * a + a := by ring
  rw [List.mem_append] at he
  rcases he with he | he
  · rcases Nat.lt_or_ge 1 (L' + 1) with hL2 | hL2
    · rw [if_pos hL2] at he
      simp only [List.mem_cons, List.not_mem_nil, or_false] at he
      rcases he with rfl | rfl | rfl <;> omega
    · rw [if_neg (by omega)] at he
      simp at he
  · simp only [Nat.add_sub_cancel, List.mem_cons, List.not_mem_nil, or_false] at he
    rcases he with rfl | rfl | rfl <;>
      (rw [e2]; generalize L' * a = q at *; omega)

lemma mem_sideQuad_lt (a L s i e : ℕ) (ha : 1 ≤ a) (hs1 : 1 ≤ s) (hs2 : s < L)
    (hi : i < a) (he : e ∈ sideQuadIndices a s i) : e < a * L + 2 := by
  obtain ⟨s', rfl⟩ : ∃ s', s = s' + 1 := ⟨s - 1, by omega⟩
  have hmul : (s' + 2) * a ≤ L * a := Nat.mul_le_mul_right a (by omega)
  have e2 : (s' + 2) * a = s' * a + 2 * a := by ring
  have key : s' * a + 2 * a ≤ L * a := by rw [← e2]; exact hmul
  have e1 : (s' + 1) * a = s' * a + a := by ring
  rw [Nat.mul_comm a L]
  unfold sideQuadIndices at he
  simp only [Nat.add_sub_cancel, List.mem_cons, List.not_mem_nil, or_false] at he
  by_cases hia : i = a - 1
  · simp only [if_pos hia] at he
    rcases he with rfl | rfl | rfl | rfl | rfl | rfl <;> (try rw [e1]) <;>
      generalize s' * a = q at * <;> generalize L * a = r at * <;> omega
  · simp only [if_neg hia] at he
    rcases he with rfl | rfl | rfl | rfl | rfl | rfl <;> (try rw [e1]) <;>
      generalize s' * a = q at * <;> generalize L * a = r at * <;> omega

lemma mem_meshIndices_lt (a L e : ℕ) (ha : 1 ≤ a) (hL : 1 ≤ L)
    (he : e ∈ meshIndices a L) : e < a * L + 2 := by
  unfold meshIndices at he
  rw [List.mem_append] at he
  rcases he with he | he
  · exact mem_capIndices_lt a L e ha hL he
  · rw [List.mem_flatMap] at he
    obtain ⟨s, hs, he⟩ := he
    rw [List.mem_range'_1] at hs
    rw [List.mem_flatMap] at he
    obtain ⟨i, hi, he⟩ := he
    rw [List.mem_range] at hi
    exact mem_sideQuad_lt a L s i e ha (by omega) (by omega) hi he

/-! ### Side-wall seam facts -/

lemma sideQuad_flatten (a s i : ℕ) :
    sideQuadIndices a s i =
      (sideQuadTriangles a s i).flatMap fun t => [t.1, t.2.1, t.2.2] := rfl

lemma sideQuadTriangles_length (a s i : ℕ) : (sideQuadTriangles a s i).length = 2 := rfl

lemma sideQuad_wrap (a s : ℕ) (ha : 2 ≤ a) (hs : 1 ≤ s) :
    (sideQuadIndices a s (a - 1)).getD 0 0 = (s - 1) * a + 1 ∧
      (sideQuadIndices a s (a - 1)).getD 1 0 = s * a + 1 := by
  unfold sideQuadIndices
  simp

lemma sideQuad_seam (a s i : ℕ) (ha : 2 ≤ a) (hi : i < a) :
    (sideQuadIndices a s i).getD 0 0 =
      (sideQuadIndices a s (if i = a - 1 then 0 else i + 1)).getD 3 0 ∧
      (sideQuadIndices a s i).getD 1 0 =
        (sideQuadIndices a s (if i = a - 1 then 0 else i + 1)).getD 2 0 := by
  unfold sideQuadIndices
  by_cases h : i = a - 1 <;> simp [h] <;> omega

lemma sideQuad_edge_sharing (a s i j : ℕ) (ha : 2 ≤ a) (hs : 1 ≤ s) (hi : i < a)
    (hj : j < a) : ∀ t ∈ sideQuadTriangles a s j,
      triHasEdge t ((s - 1) * a + i + 1) (s * a + i + 1) ↔
        ((j = i ∧ t = (sideQuadTriangles a s j).getD 1 default) ∨
          (j = (if i = 0 then a - 1 else i - 1) ∧
            t = (sideQuadTriangles a s j).getD 0 default)) := by
  obtain ⟨s', rfl⟩ : ∃ s', s = s' + 1 := ⟨s - 1, by omega⟩
  have e1 : (s' + 1) * a = s' * a + a := by ring
  intro t ht
  unfold sideQuadTriangles at ht ⊢
  simp only [List.mem_cons, List.not_mem_nil, or_false] at ht
  simp only [Nat.add_sub_cancel, e1] at ht ⊢
  generalize s' * a = p at ht ⊢
  rcases ht with rfl | rfl <;>
    by_cases hja : j = a - 1 <;> by_cases hi0 : i = 0 <;>
    simp [triHasEdge, Prod.mk.injEq, hja, hi0, List.getD_cons_zero, List.getD_cons_succ] <;>
    omega

/-! ### Shape of the `src/main.rs` ring -/

lemma dropLast_reverse (l : List Position) : l.reverse.dropLast = l.tail.reverse := by
  have h := tail_reverse l.reverse
  rw [List.reverse_reverse] at h
  calc l.reverse.dropLast = l.reverse.dropLast.reverse.reverse := by
        rw [List.reverse_reverse]
    _ = l.tail.reverse := by rw [← h]

lemma refineStepM_length (arctan f : ℚ → ℚ) (l : List Position) (h : 2 ≤ l.length) :
    (refineStepM arctan f l).length = l.length + 1 := by
  have hb := selectPairM_fst_bounds arctan f l h
  unfold refineStepM
  rw [List.length_insertIdx _ _ (by omega)]

lemma iterM_length (arctan f : ℚ → ℚ) (l : List Position) (h : 2 ≤ l.length) (k : ℕ) :
    ((refineStepM arctan f)^[k] l).length = l.length + k := by
  induction k with
  | zero => rfl
  | succ k ih =>
    rw [Function.iterate_succ_apply', refineStepM_length arctan f _ (by rw [ih]; omega), ih]
    omega

lemma get_ring_some (arctan f : ℚ → ℚ) (x_start x_end : ℚ) (vps : ℕ)
    (h1 : x_start < x_end) (h2 : 2 < vps) :
    get_ring_from_math_function arctan f x_start x_end vps =
      some ((((refineStepM arctan f)^[vps - 2]
          [startPos arctan f x_start, endPos arctan f x_end]).map fun e => (e.x, e.y)) ++
        ((((refineStepM arctan f)^[vps - 2]
            [startPos arctan f x_start, endPos arctan f x_end]).tail.dropLast.reverse).map
          fun e => (e.x, -e.y))) := by
  have hlen : ((refineStepM arctan f)^[vps - 2]
      [startPos arctan f x_start, endPos arctan f x_end]).length = vps := by
    rw [iterM_length arctan f _ (by simp) (vps - 2)]
    simp
    omega
  unfold get_ring_from_math_function
  rw [if_pos h1, if_pos h2]
  dsimp only
  have hrev : (((refineStepM arctan f)^[vps - 2]
      [startPos arctan f x_start, endPos arctan f x_end]).reverse).eraseIdx (vps - 1) =
      ((refineStepM arctan f)^[vps - 2]
        [startPos arctan f x_start, endPos arctan f x_end]).tail.reverse := by
    rw [show vps - 1 = (((refineStepM arctan f)^[vps - 2]
        [startPos arctan f x_start, endPos arctan f x_end]).reverse).length - 1 by
          rw [List.length_reverse, hlen],
      eraseIdx_last_eq_dropLast _ (by
        intro hnil
        have := congrArg List.length hnil
        rw [List.length_reverse, hlen] at this
        simp at this
        omega),
      dropLast_reverse]
  rw [hrev, eraseIdx_zero_eq_tail, tail_reverse]

/-! ### Claim theorems -/

/-- C8: the sampler seeds the sequence with exactly the two endpoint samples
`(x_start, f x_start)` and `(x_end, f x_end)` (with their boundary slopes), and
each refinement iteration increases the point count by exactly one, never
removing or reordering previously inserted points (the list stays strictly
sorted by `x`), until the final mirror step. -/
theorem C8_monotonic_refinement (arctan f : ℚ → ℚ) (x_start x_end : ℚ)
    (h : x_start < x_end) :
    refined arctan f x_start x_end 0 =
      ([⟨x_start, f x_start, slopeAt arctan f x_start⟩,
        ⟨x_end, f x_end, arctan ((f x_end - f (x_end - delta)) / delta)⟩], 0) ∧
    ∀ k, (refined arctan f x_start x_end (k + 1)).1.length =
        (refined arctan f x_start x_end k).1.length + 1 ∧
      List.Sublist (refined arctan f x_start x_end k).1
        (refined arctan f x_start x_end (k + 1)).1 ∧
      List.Chain' (fun p q : Position => p.x < q.x)
        (refined arctan f x_start x_end k).1 := by
  refine ⟨rfl, fun k => ⟨?_, refined_sublist arctan f x_start x_end k,
    refined_chain' arctan f x_start x_end h k⟩⟩
  rw [refined_length, refined_length]

/-- Witness for C8 at `arctan = id`, `f = 1`, domain `[-1, 1]`. -/
theorem C8_monotonic_refinement_witness :
    refined id (fun _ => (1 : ℚ)) (-1) 1 0 =
      ([⟨-1, 1, slopeAt id (fun _ => (1 : ℚ)) (-1)⟩,
        ⟨1, 1, id ((1 - (1 : ℚ)) / delta)⟩], 0) ∧
    ∀ k, (refined id (fun _ => (1 : ℚ)) (-1) 1 (k + 1)).1.length =
        (refined id (fun _ => (1 : ℚ)) (-1) 1 k).1.length + 1 ∧
      List.Sublist (refined id (fun _ => (1 : ℚ)) (-1) 1 k).1
        (refined id (fun _ => (1 : ℚ)) (-1) 1 (k + 1)).1 ∧
      List.Chain' (fun p q : Position => p.x < q.x)
        (refined id (fun _ => (1 : ℚ)) (-1) 1 k).1 :=
  C8_monotonic_refinement id (fun _ => (1 : ℚ)) (-1) 1 (by norm_num)

/-- C4: at every refinement iteration, the scan scores each adjacent pair `j`
by `|slope_mid - slope_j| + |slope_mid - slope_(j-1)|`, breaks exact score ties
in favour of a larger `x`-span, and the midpoint of the selected maximal pair
is inserted into exactly that interval. -/
theorem C4_greedy_selection (arctan f : ℚ → ℚ) (x_start x_end : ℚ)
    (h : x_start < x_end) (k : ℕ) :
    (∀ j, candX (refined arctan f x_start x_end k).1 j =
      (((refined arctan f x_start x_end k).1.getD (j - 1) default).x +
        ((refined arctan f x_start x_end k).1.getD j default).x) / 2) ∧
    (1 ≤ (selectPair arctan f (refined arctan f x_start x_end k).1).1 ∧
      (selectPair arctan f (refined arctan f x_start x_end k).1).1 <
        (refined arctan f x_start x_end k).1.length) ∧
    (selectPair arctan f (refined arctan f x_start x_end k).1).2.1 =
      scoreAt arctan f (refined arctan f x_start x_end k).1
        (selectPair arctan f (refined arctan f x_start x_end k).1).1 ∧
    (selectPair arctan f (refined arctan f x_start x_end k).1).2.2 =
      spanAt (refined arctan f x_start x_end k).1
        (selectPair arctan f (refined arctan f x_start x_end k).1).1 ∧
    (∀ j, 1 ≤ j → j < (refined arctan f x_start x_end k).1.length →
      scoreAt arctan f (refined arctan f x_start x_end k).1 j <
          (selectPair arctan f (refined arctan f x_start x_end k).1).2.1 ∨
        (scoreAt arctan f (refined arctan f x_start x_end k).1 j =
            (selectPair arctan f (refined arctan f x_start x_end k).1).2.1 ∧
          spanAt (refined arctan f x_start x_end k).1 j ≤
            (selectPair arctan f (refined arctan f x_start x_end k).1).2.2)) ∧
    (refined arctan f x_start x_end (k + 1)).1 =
      List.insertIdx (selectPair arctan f (refined arctan f x_start x_end k).1).1
        ⟨candX (refined arctan f x_start x_end k).1
            (selectPair arctan f (refined arctan f x_start x_end k).1).1,
          f (candX (refined arctan f x_start x_end k).1
            (selectPair arctan f (refined arctan f x_start x_end k).1).1),
          slopeAt arctan f (candX (refined arctan f x_start x_end k).1
            (selectPair arctan f (refined arctan f x_start x_end k).1).1)⟩
        (refined arctan f x_start x_end k).1 := by
  have hlen := refined_length arctan f x_start x_end k
  have hc := refined_chain' arctan f x_start x_end h k
  have hb := selectPair_fst_bounds arctan f (refined arctan f x_start x_end k).1 (by omega)
  obtain ⟨h1, h2, h3⟩ := selectPair_max arctan f (refined arctan f x_start x_end k).1
    (by omega) hc
  refine ⟨fun j => ?_, hb, h1, h2, h3, by rw [refined_succ, refineStep_fst]⟩
  unfold candX
  ring

/-- Witness for C4 at `arctan = id`, `f = 1`, domain `[-1, 1]`, iteration `0`. -/
theorem C4_greedy_selection_witness :
    (∀ j, candX (refined id (fun _ => (1 : ℚ)) (-1) 1 0).1 j =
      (((refined id (fun _ => (1 : ℚ)) (-1) 1 0).1.getD (j - 1) default).x +
        ((refined id (fun _ => (1 : ℚ)) (-1) 1 0).1.getD j default).x) / 2) ∧
    (1 ≤ (selectPair id (fun _ => (1 : ℚ)) (refined id (fun _ => (1 : ℚ)) (-1) 1 0).1).1 ∧
      (selectPair id (fun _ => (1 : ℚ)) (refined id (fun _ => (1 : ℚ)) (-1) 1 0).1).1 <
        (refined id (fun _ => (1 : ℚ)) (-1) 1 0).1.length) ∧
    (selectPair id (fun _ => (1 : ℚ)) (refined id (fun _ => (1 : ℚ)) (-1) 1 0).1).2.1 =
      scoreAt id (fun _ => (1 : ℚ)) (refined id (fun _ => (1 : ℚ)) (-1) 1 0).1
        (selectPair id (fun _ => (1 : ℚ)) (refined id (fun _ => (1 : ℚ)) (-1) 1 0).1).1 ∧
    (selectPair id (fun _ => (1 : ℚ)) (refined id (fun _ => (1 : ℚ)) (-1) 1 0).1).2.2 =
      spanAt (refined id (fun _ => (1 : ℚ)) (-1) 1 0).1
        (selectPair id (fun _ => (1 : ℚ)) (refined id (fun _ => (1 : ℚ)) (-1) 1 0).1).1 ∧
    (∀ j, 1 ≤ j → j < (refined id (fun _ => (1 : ℚ)) (-1) 1 0).1.length →
      scoreAt id (fun _ => (1 : ℚ)) (refined id (fun _ => (1 : ℚ)) (-1) 1 0).1 j <
          (selectPair id (fun _ => (1 : ℚ))
            (refined id (fun _ => (1 : ℚ)) (-1) 1 0).1).2.1 ∨
        (scoreAt id (fun _ => (1 : ℚ)) (refined id (fun _ => (1 : ℚ)) (-1) 1 0).1 j =
            (selectPair id (fun _ => (1 : ℚ))
              (refined id (fun _ => (1 : ℚ)) (-1) 1 0).1).2.1 ∧
          spanAt (refined id (fun _ => (1 : ℚ)) (-1) 1 0).1 j ≤
            (selectPair id (fun _ => (1 : ℚ))
              (refined id (fun _ => (1 : ℚ)) (-1) 1 0).1).2.2)) ∧
    (refined id (fun _ => (1 : ℚ)) (-1) 1 1).1 =
      List.insertIdx (selectPair id (fun _ => (1 : ℚ))
          (refined id (fun _ => (1 : ℚ)) (-1) 1 0).1).1
        ⟨candX (refined id (fun _ => (1 : ℚ)) (-1) 1 0).1
            (selectPair id (fun _ => (1 : ℚ)) (refined id (fun _ => (1 : ℚ)) (-1) 1 0).1).1,
          (fun _ => (1 : ℚ)) (candX (refined id (fun _ => (1 : ℚ)) (-1) 1 0).1
            (selectPair id (fun _ => (1 : ℚ)) (refined id (fun _ => (1 : ℚ)) (-1) 1 0).1).1),
          slopeAt id (fun _ => (1 : ℚ)) (candX (refined id (fun _ => (1 : ℚ)) (-1) 1 0).1
            (selectPair id (fun _ => (1 : ℚ))
              (refined id (fun _ => (1 : ℚ)) (-1) 1 0).1).1)⟩
        (refined id (fun _ => (1 : ℚ)) (-1) 1 0).1 :=
  C4_greedy_selection id (fun _ => (1 : ℚ)) (-1) 1 (by norm_num) 0

/-- C10: the returned running maximum is initialized to `0.0` and only ever
updated at inserted midpoints, hence it is always nonnegative, and it is
exactly `0` whenever `f` is negative at every inserted midpoint (regardless of
the endpoint values `f x_start`, `f x_end`). -/
theorem C10_running_max_nonneg (arctan f : ℚ → ℚ) (x_start x_end : ℚ) (n : ℕ) :
    0 ≤ (calculate_ring_of_vertices arctan f x_start x_end n).2 ∧
    ((∀ x ∈ insertedMidpoints arctan f x_start x_end n, f x < 0) →
      (calculate_ring_of_vertices arctan f x_start x_end n).2 = 0) := by
  rw [calc_ring_snd, refined_snd_eq_foldl]
  exact ⟨le_foldl_max f _ 0, fun hneg => foldl_max_zero_of_neg f _ hneg⟩

/-- Witness for C10: `f` is `5` at the endpoints `±1` but `-1` at the single
inserted midpoint `0`; the returned maximum is `0`, not `5` and not `-1`. -/
theorem C10_running_max_nonneg_witness :
    0 ≤ (calculate_ring_of_vertices id
      (fun x => if x = -1 ∨ x = 1 then (5 : ℚ) else -1) (-1) 1 3).2 ∧
    (calculate_ring_of_vertices id
      (fun x => if x = -1 ∨ x = 1 then (5 : ℚ) else -1) (-1) 1 3).2 = 0 := by
  refine ⟨(C10_running_max_nonneg id _ (-1) 1 3).1,
    (C10_running_max_nonneg id _ (-1) 1 3).2 ?_⟩
  intro x hx
  norm_num [insertedMidpoints, midTrace, refined, selectPair, selStep, scoreAt, spanAt,
    candX, slopeAt, startPos, endPos, delta] at hx
  subst hx
  norm_num

/-- C9 counterexample: for the constant function `f = -1` the single inserted
midpoint is `0` with `f 0 = -1`, so the maximum of `f` over the inserted
midpoints is `-1`, yet the function returns `0`. -/
theorem C9_running_max_cex :
    insertedMidpoints id (fun _ => (-1 : ℚ)) (-1) 1 3 = [0] ∧
    ((insertedMidpoints id (fun _ => (-1 : ℚ)) (-1) 1 3).map
      (fun _ => (-1 : ℚ))).foldr max (-1) = -1 ∧
    (calculate_ring_of_vertices id (fun _ => (-1 : ℚ)) (-1) 1 3).2 = 0 := by
  have hmid : insertedMidpoints id (fun _ => (-1 : ℚ)) (-1) 1 3 = [0] := by
    have hr : List.range (3 - 2) = [0] := rfl
    have hr2 : List.range' 1 1 = [1] := rfl
    norm_num [insertedMidpoints, midTrace, hr, hr2, refined, selectPair, selStep,
      scoreAt, spanAt, candX, slopeAt, startPos, endPos, delta]
  refine ⟨hmid, ?_, ?_⟩
  · rw [hmid]
    norm_num
  · rw [calc_ring_snd, refined_snd_eq_foldl]
    have hmid2 : midTrace id (fun _ => (-1 : ℚ)) (-1) 1 (3 - 2) = [0] := hmid
    rw [hmid2]
    norm_num

/-- C9 amended: the second return value equals the running maximum of `0` and
the values of `f` at the inserted midpoints, i.e. the fold of `max` over
`f` of the inserted midpoints started at `0` (not the plain maximum of those
values, which it undercounts when they are all negative). -/
theorem C9_running_max_amended (arctan f : ℚ → ℚ) (x_start x_end : ℚ) (n : ℕ) :
    (calculate_ring_of_vertices arctan f x_start x_end n).2 =
      ((insertedMidpoints arctan f x_start x_end n).map f).foldl max 0 := by
  rw [calc_ring_snd, refined_snd_eq_foldl, List.foldl_map]
  rfl

/-- C1 counterexample: for the constant function `f = 1` (no boundary point on
the mirror axis, so the claim predicts `2 * vertex_count = 6` points at
`vertex_count = 3`) the returned mirrored ring has only `4` points: the code
removes a boundary point exactly when `f` there is nonzero. -/
theorem C1_vertex_count_cex :
    (calculate_ring_of_vertices id (fun _ => (1 : ℚ)) (-1) 1 3).1.length = 4 ∧
      (calculate_ring_of_vertices id (fun _ => (1 : ℚ)) (-1) 1 3).1.length ≠ 2 * 3 := by
  have h := calc_ring_length id (fun _ => (1 : ℚ)) (-1) 1 3
  norm_num at h
  exact ⟨h, by omega⟩

/-- C1 amended: the un-mirrored refinement sequence has exactly `vertex_count`
points, and the mirrored ring has `2 * vertex_count - k` points where
`k ∈ {0, 1, 2}` counts the domain boundary points at which `f` is NONZERO
(not zero, as the claim stated); in particular `f = 1` yields
`2 * vertex_count - 2` points. -/
theorem C1_vertex_count_amended (arctan f : ℚ → ℚ) (x_start x_end : ℚ) (n : ℕ)
    (hn : 3 ≤ n) :
    (refined arctan f x_start x_end (n - 2)).1.length = n ∧
    (calculate_ring_of_vertices arctan f x_start x_end n).1.length =
      2 * n - ((if f x_start ≠ 0 then 1 else 0) + (if f x_end ≠ 0 then 1 else 0)) ∧
    ((if f x_start ≠ 0 then 1 else 0) + (if f x_end ≠ 0 then 1 else 0) : ℕ) ≤ 2 := by
  refine ⟨?_, ?_, ?_⟩
  · rw [refined_length]
    omega
  · rw [calc_ring_length]
    by_cases h1 : f x_start ≠ 0 <;> by_cases h2 : f x_end ≠ 0 <;>
      simp [h1, h2] <;> omega
  · by_cases h1 : f x_start ≠ 0 <;> by_cases h2 : f x_end ≠ 0 <;> simp [h1, h2]

/-- Witness for the amended C1 at `f = 1`, `vertex_count = 20`. -/
theorem C1_vertex_count_amended_witness :
    (refined id (fun _ => (1 : ℚ)) (-1) 1 (20 - 2)).1.length = 20 ∧
    (calculate_ring_of_vertices id (fun _ => (1 : ℚ)) (-1) 1 20).1.length =
      2 * 20 - ((if (fun _ => (1 : ℚ)) (-1) ≠ 0 then 1 else 0) +
        (if (fun _ => (1 : ℚ)) 1 ≠ 0 then 1 else 0)) ∧
    ((if (fun _ => (1 : ℚ)) (-1) ≠ 0 then 1 else 0) +
      (if (fun _ => (1 : ℚ)) 1 ≠ 0 then 1 else 0) : ℕ) ≤ 2 :=
  C1_vertex_count_amended id (fun _ => (1 : ℚ)) (-1) 1 20 (by norm_num)

/-- C2 counterexample: with `f = 1` and `vertex_count = 3` both mirrored
boundary points are removed although `f = 1 ≠ 0` at both boundaries (the claim
predicts they are kept, removal happening only where `f = 0`): the ring is
`[(-1,1), (0,1), (1,1), (0,-1)]` and the mirrored boundary point `(1,-1)` is
absent. -/
theorem C2_mirror_trim_cex :
    (calculate_ring_of_vertices id (fun _ => (1 : ℚ)) (-1) 1 3).1 =
      [⟨-1, 1, 0⟩, ⟨0, 1, 0⟩, ⟨1, 1, 0⟩, ⟨0, -1, 0⟩] ∧
    Position.mk 1 (-1) 0 ∉ (calculate_ring_of_vertices id (fun _ => (1 : ℚ)) (-1) 1 3).1 := by
  have h : (calculate_ring_of_vertices id (fun _ => (1 : ℚ)) (-1) 1 3).1 =
      [⟨-1, 1, 0⟩, ⟨0, 1, 0⟩, ⟨1, 1, 0⟩, ⟨0, -1, 0⟩] := by
    norm_num [calculate_ring_of_vertices, refined, refineStep, selectPair, selStep,
      scoreAt, spanAt, candX, slopeAt, startPos, endPos, delta, mirrorPos,
      Function.iterate_succ, Function.iterate_zero]
  refine ⟨h, ?_⟩
  rw [h]
  norm_num [Position.mk.injEq]

/-- C2 amended: in `src/lib.rs` a boundary copy is removed from the mirrored
half precisely when the function value at that boundary `x` is NONZERO (the
start copy via the first `remove(0)`, the end copy via the second, both
value-tested); in `src/main.rs` both boundary copies are always removed purely
by position, with no value test. -/
theorem C2_mirror_trim_amended (arctan f : ℚ → ℚ) (x_start x_end : ℚ) (n vps : ℕ) :
    (calculate_ring_of_vertices arctan f x_start x_end n).1 =
      (refined arctan f x_start x_end (n - 2)).1 ++
        ((if f x_end ≠ 0 then
            (if f x_start ≠ 0 then (refined arctan f x_start x_end (n - 2)).1.tail
              else (refined arctan f x_start x_end (n - 2)).1).dropLast
          else
            (if f x_start ≠ 0 then (refined arctan f x_start x_end (n - 2)).1.tail
              else (refined arctan f x_start x_end (n - 2)).1)).reverse).map mirrorPos ∧
    (x_start < x_end → 2 < vps →
      get_ring_from_math_function arctan f x_start x_end vps =
        some ((((refineStepM arctan f)^[vps - 2]
            [startPos arctan f x_start, endPos arctan f x_end]).map fun e => (e.x, e.y)) ++
          ((((refineStepM arctan f)^[vps - 2]
              [startPos arctan f x_start, endPos arctan f x_end]).tail.dropLast.reverse).map
            fun e => (e.x, -e.y)))) := by
  constructor
  · rw [calc_ring_fst]
    by_cases h2 : f x_end ≠ 0 <;> simp [h2, tail_reverse]
  · intro h1 h2
    exact get_ring_some arctan f x_start x_end vps h1 h2

/-- Witness for the amended C2 at `f = 1`, `n = 3`, `vps = 3`. -/
theorem C2_mirror_trim_amended_witness :
    (calculate_ring_of_vertices id (fun _ => (1 : ℚ)) (-1) 1 3).1 =
      (refined id (fun _ => (1 : ℚ)) (-1) 1 (3 - 2)).1 ++
        ((if (fun _ => (1 : ℚ)) 1 ≠ 0 then
            (if (fun _ => (1 : ℚ)) (-1) ≠ 0 then
              (refined id (fun _ => (1 : ℚ)) (-1) 1 (3 - 2)).1.tail
              else (refined id (fun _ => (1 : ℚ)) (-1) 1 (3 - 2)).1).dropLast
          else
            (if (fun _ => (1 : ℚ)) (-1) ≠ 0 then
              (refined id (fun _ => (1 : ℚ)) (-1) 1 (3 - 2)).1.tail
              else (refined id (fun _ => (1 : ℚ)) (-1) 1 (3 - 2)).1)).reverse).map
          mirrorPos ∧
    get_ring_from_math_function id (fun _ => (1 : ℚ)) (-1) 1 3 =
      some ((((refineStepM id (fun _ => (1 : ℚ)))^[3 - 2]
          [startPos id (fun _ => (1 : ℚ)) (-1), endPos id (fun _ => (1 : ℚ)) 1]).map
            fun e => (e.x, e.y)) ++
        ((((refineStepM id (fun _ => (1 : ℚ)))^[3 - 2]
            [startPos id (fun _ => (1 : ℚ)) (-1),
              endPos id (fun _ => (1 : ℚ)) 1]).tail.dropLast.reverse).map
          fun e => (e.x, -e.y))) :=
  ⟨(C2_mirror_trim_amended id (fun _ => (1 : ℚ)) (-1) 1 3 3).1,
    (C2_mirror_trim_amended id (fun _ => (1 : ℚ)) (-1) 1 3 3).2
      (by norm_num) (by norm_num)⟩

/-- C7 counterexample: the library path performs no eager validation at all —
with a degenerate domain `x_start = x_end = 0` it still returns a 4-point ring,
and with `vertices = 2 < 3` it still returns a nonempty ring; no
`InvalidRangeError` / `InvalidParameterError` values exist anywhere in the
code. -/
theorem C7_validation_cex :
    (calculate_ring_of_vertices id (fun _ => (1 : ℚ)) 0 0 3).1.length = 4 ∧
    (calculate_ring_of_vertices id (fun _ => (1 : ℚ)) (-1) 1 2).1 ≠ [] := by
  constructor
  · have h := calc_ring_length id (fun _ => (1 : ℚ)) 0 0 3
    norm_num at h
    exact h
  · intro hnil
    have h := congrArg List.length hnil
    rw [calc_ring_length] at h
    norm_num at h

/-- C7 amended: only `src/main.rs`'s `get_ring_from_math_function` validates
eagerly, by panicking `assert!`s (modelled as `none`), for both `x_start <
x_end` and `vertices_per_side > 2`, before any sampling; the `src/lib.rs` path
has only debug assertions, performs no vertex-count check, and its
`calculate_ring_of_vertices` happily returns a (nonempty) ring even for a
degenerate domain `x_start = x_end`. -/
theorem C7_validation_amended (arctan f : ℚ → ℚ) (x_start x_end : ℚ) (vps n : ℕ) :
    (¬x_start < x_end → get_ring_from_math_function arctan f x_start x_end vps = none) ∧
    (vps ≤ 2 → get_ring_from_math_function arctan f x_start x_end vps = none) ∧
    (calculate_ring_of_vertices arctan f x_start x_start n).1 ≠ [] := by
  refine ⟨?_, ?_, ?_⟩
  · intro h
    unfold get_ring_from_math_function
    rw [if_neg h]
  · intro h
    unfold get_ring_from_math_function
    by_cases hx : x_start < x_end
    · rw [if_pos hx, if_neg (by omega)]
    · rw [if_neg hx]
  · intro hnil
    have h := congrArg List.length hnil
    rw [calc_ring_length] at h
    by_cases h1 : f x_start ≠ 0 <;> simp [h1] at h

/-- Witness for the amended C7: degenerate domain `(0, 0)`, too-small vertex
budget `2`, and the nonempty ring of the unchecked library path. -/
theorem C7_validation_amended_witness :
    get_ring_from_math_function id (fun _ => (1 : ℚ)) 1 0 5 = none ∧
    get_ring_from_math_function id (fun _ => (1 : ℚ)) (-1) 1 2 = none ∧
    (calculate_ring_of_vertices id (fun _ => (1 : ℚ)) 0 0 4).1 ≠ [] :=
  ⟨(C7_validation_amended id (fun _ => (1 : ℚ)) 1 0 5 4).1 (by norm_num),
    (C7_validation_amended id (fun _ => (1 : ℚ)) (-1) 1 2 4).2.1 (by norm_num),
    (C7_validation_amended id (fun _ => (1 : ℚ)) 0 0 4 4).2.2⟩

/-- C5: under the documented preconditions, every entry of the index buffer is
strictly below the vertex-buffer length, and the index buffer length is an
exact multiple of 3. -/
theorem C5_index_validity (arctan tanq : ℚ → ℚ) (nrm : ℚ × ℚ × ℚ → ℚ × ℚ × ℚ)
    (m : SingleVariableFunctionMesh) (hx : m.x_start < m.x_end) (hv : 3 ≤ m.vertices)
    (hr0 : 0 ≤ m.relative_height) (hr1 : m.relative_height ≤ 1) :
    (∀ e ∈ (mesh_from arctan tanq nrm m).2, e < (mesh_from arctan tanq nrm m).1.length) ∧
    (mesh_from arctan tanq nrm m).2.length % 3 = 0 := by
  have hlen : (calculate_ring_of_vertices arctan m.f m.x_start m.x_end m.vertices).1.length =
      (m.vertices - 2 + 2) + ((m.vertices - 2 + 2) -
        ((if m.f m.x_start ≠ 0 then 1 else 0) + (if m.f m.x_end ≠ 0 then 1 else 0))) :=
    calc_ring_length arctan m.f m.x_start m.x_end m.vertices
  have ha : 4 ≤ ringAmount arctan m := by
    unfold ringAmount
    rw [hlen]
    by_cases h1 : m.f m.x_start ≠ 0 <;> by_cases h2 : m.f m.x_end ≠ 0 <;>
      simp [h1, h2] <;> omega
  have hL : 1 ≤ meshAmountLayers arctan m := by
    unfold meshAmountLayers
    by_cases h : m.relative_height = 0
    · simp [h]
    · rw [if_neg h]
      have := ha
      unfold ringAmount at this
      omega
  constructor
  · intro e he
    unfold mesh_from at he ⊢
    rw [meshVertices_length arctan tanq nrm m hr0, Nat.mul_comm]
    exact mem_meshIndices_lt (ringAmount arctan m) (meshAmountLayers arctan m) e
      (by omega) hL he
  · exact meshIndices_length_mod3 (ringAmount arctan m) (meshAmountLayers arctan m)

/-- Witness for C5 at `f = 1`, domain `[-1, 1]`, `vertices = 4`,
`relative_height = 1/2`. -/
theorem C5_index_validity_witness :
    (∀ e ∈ (mesh_from id id id ⟨fun _ => 1, -1, 1, 4, 1/2⟩).2,
      e < (mesh_from id id id ⟨fun _ => 1, -1, 1, 4, 1/2⟩).1.length) ∧
    (mesh_from id id id ⟨fun _ => 1, -1, 1, 4, 1/2⟩).2.length % 3 = 0 :=
  C5_index_validity id id id ⟨fun _ => 1, -1, 1, 4, 1/2⟩ (by norm_num) (by norm_num)
    (by norm_num) (by norm_num)

lemma flat20_sizes (arctan tanq : ℚ → ℚ) (nrm : ℚ × ℚ × ℚ → ℚ × ℚ × ℚ) :
    ringAmount arctan ⟨fun _ => 1, -1, 1, 20, 0⟩ = 38 ∧
    meshAmountLayers arctan ⟨fun _ => 1, -1, 1, 20, 0⟩ = 1 ∧
    (mesh_from arctan tanq nrm ⟨fun _ => 1, -1, 1, 20, 0⟩).1.length = 40 ∧
    (mesh_from arctan tanq nrm ⟨fun _ => 1, -1, 1, 20, 0⟩).2.length = 114 := by
  have hamount : ringAmount arctan ⟨fun _ => 1, -1, 1, 20, 0⟩ = 38 := by
    unfold ringAmount
    rw [calc_ring_length]
    norm_num
  have hlayers : meshAmountLayers arctan ⟨fun _ => 1, -1, 1, 20, 0⟩ = 1 := by
    simp [meshAmountLayers]
  refine ⟨hamount, hlayers, ?_, ?_⟩
  · unfold mesh_from
    rw [meshVertices_length arctan tanq nrm _ (by norm_num), hamount, hlayers]
  · unfold mesh_from
    rw [meshIndices_length, hamount, hlayers]
    norm_num

/-- C3 counterexample: for `f = 1` on `[-1, 1]` with `vertices = 20` and
`relative_height = 0` (the single-layer regime) the mesh has `40` vertices and
`38` fan triangles, not the claimed `22` vertices and `20` triangles: the ring
already holds `2 * 20 - 2 = 38` points, not `20`. -/
theorem C3_flat_profile_cex :
    (mesh_from id id id ⟨fun _ => 1, -1, 1, 20, 0⟩).1.length = 40 ∧
    (mesh_from id id id ⟨fun _ => 1, -1, 1, 20, 0⟩).1.length ≠ 20 + 2 ∧
    (mesh_from id id id ⟨fun _ => 1, -1, 1, 20, 0⟩).2.length = 3 * 38 ∧
    (mesh_from id id id ⟨fun _ => 1, -1, 1, 20, 0⟩).2.length ≠ 3 * 20 := by
  obtain ⟨_, _, hv, hi⟩ := flat20_sizes id id id
  exact ⟨hv, by omega, by omega, by omega⟩

/-- C3 amended: that configuration yields `2 * 20 - 2 + 2 = 40` vertices (the
38-point ring plus two poles, the bottom pole being unused by the fan) and a
single triangle fan of `38` triangles around the top pole vertex `39`. -/
theorem C3_flat_profile_amended (arctan tanq : ℚ → ℚ) (nrm : ℚ × ℚ × ℚ → ℚ × ℚ × ℚ) :
    (mesh_from arctan tanq nrm ⟨fun _ => 1, -1, 1, 20, 0⟩).1.length = 40 ∧
    (mesh_from arctan tanq nrm ⟨fun _ => 1, -1, 1, 20, 0⟩).2 =
      (List.range 38).flatMap (fun i => [i + 1, (i + 1) % 38 + 1, 39]) ∧
    (mesh_from arctan tanq nrm ⟨fun _ => 1, -1, 1, 20, 0⟩).2.length = 3 * 38 := by
  obtain ⟨hamount, hlayers, hv, hi⟩ := flat20_sizes arctan tanq nrm
  refine ⟨hv, ?_, by omega⟩
  show meshIndices (ringAmount arctan ⟨fun _ => 1, -1, 1, 20, 0⟩)
      (meshAmountLayers arctan ⟨fun _ => 1, -1, 1, 20, 0⟩) = _
  rw [hamount, hlayers]
  norm_num [meshIndices, capIndices]

/-- C6: one quad (two triangles) per ring segment for each pair of adjacent
layers; at the last ring segment the quad's `next` corners wrap to the first
ring vertex of the corresponding layer (an in-range index); each quad's right
edge coincides with the left edge of the cyclically next quad (no gap at the
seam); and a band's triangles containing the vertical boundary edge at ring
position `i` are exactly one triangle of quad `i` and one of the cyclically
previous quad. -/
theorem C6_sidewall_seam (a L s : ℕ) (ha : 2 ≤ a) (hs1 : 1 ≤ s) (hs2 : s < L) :
    (meshIndices a L = capIndices a L ++
      (List.range' 1 (L - 1)).flatMap fun seg =>
        (List.range a).flatMap (sideQuadIndices a seg)) ∧
    (∀ i, sideQuadIndices a s i =
        (sideQuadTriangles a s i).flatMap (fun t => [t.1, t.2.1, t.2.2]) ∧
      (sideQuadTriangles a s i).length = 2) ∧
    ((sideQuadIndices a s (a - 1)).getD 0 0 = (s - 1) * a + 1 ∧
      (sideQuadIndices a s (a - 1)).getD 1 0 = s * a + 1 ∧
      s * a + 1 < a * L + 2 ∧ (s - 1) * a + 1 < a * L + 2) ∧
    (∀ i < a, (sideQuadIndices a s i).getD 0 0 =
        (sideQuadIndices a s (if i = a - 1 then 0 else i + 1)).getD 3 0 ∧
      (sideQuadIndices a s i).getD 1 0 =
        (sideQuadIndices a s (if i = a - 1 then 0 else i + 1)).getD 2 0) ∧
    (∀ i < a, ∀ j < a, ∀ t ∈ sideQuadTriangles a s j,
      triHasEdge t ((s - 1) * a + i + 1) (s * a + i + 1) ↔
        ((j = i ∧ t = (sideQuadTriangles a s j).getD 1 default) ∨
          (j = (if i = 0 then a - 1 else i - 1) ∧
            t = (sideQuadTriangles a s j).getD 0 default))) := by
  obtain ⟨hw1, hw2⟩ := sideQuad_wrap a s ha hs1
  have hkey : s * a + a ≤ L * a := by
    have hmul := Nat.mul_le_mul_right a (show s + 1 ≤ L by omega)
    rw [Nat.succ_mul] at hmul
    exact hmul
  have hcomm : a * L = L * a := Nat.mul_comm a L
  refine ⟨rfl, fun i => ⟨sideQuad_flatten a s i, rfl⟩,
    ⟨hw1, hw2, ?_, ?_⟩,
    fun i hi => sideQuad_seam a s i ha hi,
    fun i hi j hj => sideQuad_edge_sharing a s i j ha hs1 hi hj⟩
  · rw [hcomm]
    generalize s * a = q at *
    generalize L * a = r at *
    omega
  · have hle : (s - 1) * a ≤ s * a := Nat.mul_le_mul_right a (by omega)
    rw [hcomm]
    generalize (s - 1) * a = p at *
    generalize s * a = q at *
    generalize L * a = r at *
    omega

/-- Witness for C6 at `amount = 4`, `layer pair 1` of `3` layers. -/
theorem C6_sidewall_seam_witness :
    (meshIndices 4 3 = capIndices 4 3 ++
      (List.range' 1 (3 - 1)).flatMap fun seg =>
        (List.range 4).flatMap (sideQuadIndices 4 seg)) ∧
    (∀ i, sideQuadIndices 4 1 i =
        (sideQuadTriangles 4 1 i).flatMap (fun t => [t.1, t.2.1, t.2.2]) ∧
      (sideQuadTriangles 4 1 i).length = 2) ∧
    ((sideQuadIndices 4 1 (4 - 1)).getD 0 0 = (1 - 1) * 4 + 1 ∧
      (sideQuadIndices 4 1 (4 - 1)).getD 1 0 = 1 * 4 + 1 ∧
      1 * 4 + 1 < 4 * 3 + 2 ∧ (1 - 1) * 4 + 1 < 4 * 3 + 2) ∧
    (∀ i < 4, (sideQuadIndices 4 1 i).getD 0 0 =
        (sideQuadIndices 4 1 (if i = 4 - 1 then 0 else i + 1)).getD 3 0 ∧
      (sideQuadIndices 4 1 i).getD 1 0 =
        (sideQuadIndices 4 1 (if i = 4 - 1 then 0 else i + 1)).getD 2 0) ∧
    (∀ i < 4, ∀ j < 4, ∀ t ∈ sideQuadTriangles 4 1 j,
      triHasEdge t ((1 - 1) * 4 + i + 1) (1 * 4 + i + 1) ↔
        ((j = i ∧ t = (sideQuadTriangles 4 1 j).getD 1 default) ∨
          (j = (if i = 0 then 4 - 1 else i - 1) ∧
            t = (sideQuadTriangles 4 1 j).getD 0 default))) :=
  C6_sidewall_seam 4 3 1 (by norm_num) (by norm_num) (by norm_num)
